import Mathlib

/-!
Verification of the trust-metadata engine of `repo_generate/basic_repo.py`
(a TUF repository bootstrap script) against its specification.

The script drives the TUF Metadata API: it creates the four top-level
payloads (root, targets, snapshot, timestamp), registers two target files,
manages role keys and thresholds, signs each envelope, and persists the
metadata under the consistent-snapshot naming convention.  Pure fragments of
that pipeline are embedded below as executable Lean definitions; the
verification, rotation, key-registry, signing and storage operations that the
script delegates to the metadata library are modelled from the specification
(each such definition says so in its doc comment).  Time is modelled in
microseconds since an arbitrary epoch.
-/

namespace TufBootstrap

/-- A key identifier (derived from the public key material). -/
abbrev KeyId := String

/-- A signature: key identifier plus (abstracted) signature bytes. -/
structure Signature where
  keyid : KeyId
  bytes : Nat
deriving DecidableEq

/-- A role entry: the authorized key identifiers and the signing threshold. -/
structure Role where
  keyids : List KeyId
  threshold : Nat
deriving DecidableEq

/-- The typed failures surfaced by the modelled operations. -/
inductive TufError where
  | rotationError
  | invalidThreshold
  | unknownKey
  | versionConflict
deriving DecidableEq

/-- Modelled from the spec: one step of the ThresholdVerifier (§4.3).
`seen` accumulates the distinct key identifiers that have already
contributed a valid signature; a signature contributes only if its key
identifier is authorized for the role, the external cryptographic check
(abstracted by `crypto`) accepts it, and its key identifier has not
contributed yet. -/
def verifyStep (role : Role) (crypto : Signature → Bool) (seen : List KeyId)
    (s : Signature) : List KeyId :=
  if s.keyid ∈ role.keyids ∧ crypto s = true ∧ s.keyid ∉ seen then
    seen ++ [s.keyid]
  else seen

/-- Modelled from the spec: the key identifiers counted by the
ThresholdVerifier over a collected signature list. -/
def validKeys (role : Role) (crypto : Signature → Bool)
    (sigs : List Signature) : List KeyId :=
  sigs.foldl (verifyStep role crypto) []

/-- Modelled from the spec: `verify(envelope, role, nowClock)` accepts iff
the count of distinct valid authorized signatures reaches the role's
threshold and the payload's expiry is after the clock reading. -/
def verify (role : Role) (crypto : Signature → Bool) (sigs : List Signature)
    (expires now : Nat) : Bool :=
  decide (role.threshold ≤ (validKeys role crypto sigs).length) &&
    decide (now < expires)

/-- The declarative count: the number of distinct key identifiers that are
authorized for the role and carry a cryptographically valid signature. -/
def distinctValidCount (role : Role) (crypto : Signature → Bool)
    (sigs : List Signature) : Nat :=
  (((sigs.filter fun s => decide (s.keyid ∈ role.keyids) && crypto s).map
    Signature.keyid).dedup).length

lemma mem_verifyStep (role : Role) (crypto : Signature → Bool)
    (seen : List KeyId) (s : Signature) (k : KeyId) :
    k ∈ verifyStep role crypto seen s ↔
      k ∈ seen ∨ (s.keyid ∈ role.keyids ∧ crypto s = true ∧ k = s.keyid) := by
  unfold verifyStep
  by_cases h : s.keyid ∈ role.keyids ∧ crypto s = true ∧ s.keyid ∉ seen
  · rw [if_pos h]
    simp only [List.mem_append, List.mem_singleton]
    obtain ⟨h1, h2, -⟩ := h
    constructor
    · rintro (hk | rfl)
      · exact Or.inl hk
      · exact Or.inr ⟨h1, h2, rfl⟩
    · rintro (hk | ⟨-, -, rfl⟩)
      · exact Or.inl hk
      · exact Or.inr rfl
  · rw [if_neg h]
    constructor
    · exact Or.inl
    · rintro (hk | ⟨h1, h2, rfl⟩)
      · exact hk
      · by_contra hk
        exact h ⟨h1, h2, hk⟩

lemma mem_foldl_verifyStep (role : Role) (crypto : Signature → Bool) :
    ∀ (sigs : List Signature) (seen : List KeyId) (k : KeyId),
      k ∈ sigs.foldl (verifyStep role crypto) seen ↔
        k ∈ seen ∨ ∃ s ∈ sigs, s.keyid ∈ role.keyids ∧ crypto s = true ∧
          k = s.keyid := by
  intro sigs
  induction sigs with
  | nil => simp
  | cons s rest ih =>
    intro seen k
    simp only [List.foldl_cons, ih, mem_verifyStep, List.mem_cons]
    constructor
    · rintro ((hk | hs) | ⟨t, ht, h⟩)
      · exact Or.inl hk
      · exact Or.inr ⟨s, Or.inl rfl, hs⟩
      · exact Or.inr ⟨t, Or.inr ht, h⟩
    · rintro (hk | ⟨t, (rfl | ht), h⟩)
      · exact Or.inl (Or.inl hk)
      · exact Or.inl (Or.inr h)
      · exact Or.inr ⟨t, ht, h⟩

lemma nodup_foldl_verifyStep (role : Role) (crypto : Signature → Bool) :
    ∀ (sigs : List Signature) (seen : List KeyId), seen.Nodup →
      (sigs.foldl (verifyStep role crypto) seen).Nodup := by
  intro sigs
  induction sigs with
  | nil => intro seen h; simpa using h
  | cons s rest ih =>
    intro seen h
    simp only [List.foldl_cons]
    apply ih
    unfold verifyStep
    by_cases hc : s.keyid ∈ role.keyids ∧ crypto s = true ∧ s.keyid ∉ seen
    · simp only [hc, if_true]
      simpa [List.nodup_append] using ⟨h, hc.2.2⟩
    · simpa [hc] using h

lemma nodup_validKeys (role : Role) (crypto : Signature → Bool)
    (sigs : List Signature) : (validKeys role crypto sigs).Nodup :=
  nodup_foldl_verifyStep role crypto sigs [] List.nodup_nil

lemma mem_validKeys (role : Role) (crypto : Signature → Bool)
    (sigs : List Signature) (k : KeyId) :
    k ∈ validKeys role crypto sigs ↔
      ∃ s ∈ sigs, s.keyid ∈ role.keyids ∧ crypto s = true ∧ k = s.keyid := by
  simpa using mem_foldl_verifyStep role crypto sigs [] k

lemma length_validKeys (role : Role) (crypto : Signature → Bool)
    (sigs : List Signature) :
    (validKeys role crypto sigs).length = distinctValidCount role crypto sigs := by
  have hmem : ∀ k, k ∈ validKeys role crypto sigs ↔
      k ∈ ((sigs.filter fun s =>
        decide (s.keyid ∈ role.keyids) && crypto s).map Signature.keyid) := by
    intro k
    rw [mem_validKeys]
    simp only [List.mem_map, List.mem_filter, Bool.and_eq_true, decide_eq_true_eq]
    constructor
    · rintro ⟨s, hs, h1, h2, rfl⟩
      exact ⟨s, ⟨hs, h1, h2⟩, rfl⟩
    · rintro ⟨s, ⟨hs, h1, h2⟩, rfl⟩
      exact ⟨s, hs, h1, h2, rfl⟩
  have hfin : (validKeys role crypto sigs).toFinset =
      ((sigs.filter fun s =>
        decide (s.keyid ∈ role.keyids) && crypto s).map Signature.keyid).toFinset := by
    ext k
    simp only [List.mem_toFinset]
    exact hmem k
  calc (validKeys role crypto sigs).length
      = (validKeys role crypto sigs).toFinset.card :=
        (List.toFinset_card_of_nodup (nodup_validKeys role crypto sigs)).symm
    _ = ((sigs.filter fun s =>
          decide (s.keyid ∈ role.keyids) && crypto s).map
            Signature.keyid).toFinset.card := by rw [hfin]
    _ = distinctValidCount role crypto sigs := List.card_toFinset _

lemma verifyStep_unauthorized (role : Role) (crypto : Signature → Bool)
    (seen : List KeyId) (s : Signature) (hs : s.keyid ∉ role.keyids) :
    verifyStep role crypto seen s = seen := by
  unfold verifyStep
  rw [if_neg]
  rintro ⟨h1, -, -⟩
  exact hs h1

lemma validKeys_append_unauthorized (role : Role) (crypto : Signature → Bool)
    (sigs : List Signature) (s : Signature) (hs : s.keyid ∉ role.keyids) :
    validKeys role crypto (sigs ++ [s]) = validKeys role crypto sigs := by
  unfold validKeys
  rw [List.foldl_append]
  simp only [List.foldl_cons, List.foldl_nil]
  exact verifyStep_unauthorized role crypto _ s hs

lemma validKeys_append_duplicate (role : Role) (crypto : Signature → Bool)
    (sigs : List Signature) (s : Signature) (hs : s ∈ sigs) :
    (validKeys role crypto (sigs ++ [s])).length =
      (validKeys role crypto sigs).length := by
  have hmem : ∀ k, k ∈ validKeys role crypto (sigs ++ [s]) ↔
      k ∈ validKeys role crypto sigs := by
    intro k
    rw [mem_validKeys, mem_validKeys]
    constructor
    · rintro ⟨t, ht, h⟩
      rcases List.mem_append.mp ht with ht' | ht'
      · exact ⟨t, ht', h⟩
      · rcases List.mem_singleton.mp ht' with rfl
        exact ⟨t, hs, h⟩
    · rintro ⟨t, ht, h⟩
      exact ⟨t, List.mem_append.mpr (Or.inl ht), h⟩
  have hfin : (validKeys role crypto (sigs ++ [s])).toFinset =
      (validKeys role crypto sigs).toFinset := by
    ext k
    simp only [List.mem_toFinset]
    exact hmem k
  calc (validKeys role crypto (sigs ++ [s])).length
      = (validKeys role crypto (sigs ++ [s])).toFinset.card :=
        (List.toFinset_card_of_nodup (nodup_validKeys role crypto _)).symm
    _ = (validKeys role crypto sigs).toFinset.card := by rw [hfin]
    _ = (validKeys role crypto sigs).length :=
        List.toFinset_card_of_nodup (nodup_validKeys role crypto sigs)

/-- C1: threshold verification accepts iff the number of distinct,
cryptographically valid signatures from keys authorized for the role reaches
the role's threshold and the payload's expiry is after the clock reading;
signatures from unauthorized key identifiers are ignored (appending one
changes nothing), repeated submission of a signature already collected
changes nothing, and each key identifier is counted at most once
(the counted list has no duplicates). -/
theorem threshold_verification_iff (role : Role) (crypto : Signature → Bool)
    (sigs : List Signature) (expires now : Nat) :
    (verify role crypto sigs expires now = true ↔
      role.threshold ≤ distinctValidCount role crypto sigs ∧ now < expires)
    ∧ (∀ s : Signature, s.keyid ∉ role.keyids →
        verify role crypto (sigs ++ [s]) expires now =
          verify role crypto sigs expires now)
    ∧ (∀ s : Signature, s ∈ sigs →
        verify role crypto (sigs ++ [s]) expires now =
          verify role crypto sigs expires now)
    ∧ (validKeys role crypto sigs).Nodup := by
  refine ⟨?_, ?_, ?_, nodup_validKeys role crypto sigs⟩
  · unfold verify
    rw [length_validKeys]
    simp
  · intro s hs
    unfold verify
    rw [validKeys_append_unauthorized role crypto sigs s hs]
  · intro s hs
    unfold verify
    rw [validKeys_append_duplicate role crypto sigs s hs]

/-- Role with three authorized keys and threshold 2 (the spec's example):
one valid signature is rejected, two are accepted, and an extra signature
from an unauthorized key is ignored (the envelope stays accepted with
count 2). -/
theorem threshold_verification_iff_witness :
    (verify ⟨["A", "B", "C"], 2⟩ (fun _ => true) [⟨"A", 0⟩] 10 5 = false)
    ∧ (verify ⟨["A", "B", "C"], 2⟩ (fun _ => true) [⟨"A", 0⟩, ⟨"B", 0⟩] 10 5 = true)
    ∧ (verify ⟨["A", "B", "C"], 2⟩ (fun _ => true)
        ([⟨"A", 0⟩, ⟨"B", 0⟩] ++ [⟨"Z", 1⟩]) 10 5 = true)
    ∧ distinctValidCount ⟨["A", "B", "C"], 2⟩ (fun _ => true)
        ([⟨"A", 0⟩, ⟨"B", 0⟩] ++ [⟨"Z", 1⟩]) = 2 := by
  have h := (threshold_verification_iff ⟨["A", "B", "C"], 2⟩ (fun _ => true)
    [⟨"A", 0⟩, ⟨"B", 0⟩] 10 5).2.1 ⟨"Z", 1⟩ (by decide)
  refine ⟨by decide, by decide, ?_, by decide⟩
  rw [h]
  decide

/-- A root payload reduced to the fields the rotation rule consults:
its version and its own `"root"` role entry. -/
structure RootMeta where
  version : Nat
  rootRole : Role
deriving DecidableEq

/-- Modelled from the spec: whether a signature set meets a role's
threshold (the signature-count half of the ThresholdVerifier). -/
def thresholdMet (role : Role) (crypto : Signature → Bool)
    (sigs : List Signature) : Bool :=
  decide (role.threshold ≤ (validKeys role crypto sigs).length)

/-- Modelled from the spec: root rotation (§4.3).  A candidate root is
accepted only if the same signature set independently meets the active
root's `"root"` role threshold and the candidate's own `"root"` role
threshold; otherwise the operation fails with `RotationError`. -/
def acceptCandidateRoot (active cand : RootMeta) (crypto : Signature → Bool)
    (sigs : List Signature) : Except TufError RootMeta :=
  if thresholdMet active.rootRole crypto sigs = true ∧
      thresholdMet cand.rootRole crypto sigs = true then
    .ok cand
  else .error .rotationError

/-- The active trust anchor after a rotation attempt: the candidate on
success, the unchanged old root on error. -/
def activeAfterRotation (active cand : RootMeta) (crypto : Signature → Bool)
    (sigs : List Signature) : RootMeta :=
  match acceptCandidateRoot active cand crypto sigs with
  | .ok r => r
  | .error _ => active

/-- C2: a candidate root is accepted exactly when the signature set meets
both the old root's `"root"` threshold and the candidate's own `"root"`
threshold; when either fails, the operation returns `RotationError` and
the old root remains the active trust anchor. -/
theorem root_rotation_dual_threshold (active cand : RootMeta)
    (crypto : Signature → Bool) (sigs : List Signature) :
    (acceptCandidateRoot active cand crypto sigs = .ok cand ↔
      thresholdMet active.rootRole crypto sigs = true ∧
        thresholdMet cand.rootRole crypto sigs = true)
    ∧ (¬(thresholdMet active.rootRole crypto sigs = true ∧
          thresholdMet cand.rootRole crypto sigs = true) →
        acceptCandidateRoot active cand crypto sigs = .error .rotationError ∧
          activeAfterRotation active cand crypto sigs = active) := by
  constructor
  · unfold acceptCandidateRoot
    by_cases h : thresholdMet active.rootRole crypto sigs = true ∧
        thresholdMet cand.rootRole crypto sigs = true
    · rw [if_pos h]
      simp [h]
    · rw [if_neg h]
      simp [h]
  · intro h
    have herr : acceptCandidateRoot active cand crypto sigs =
        .error .rotationError := by
      unfold acceptCandidateRoot
      rw [if_neg h]
    refine ⟨herr, ?_⟩
    unfold activeAfterRotation
    rw [herr]

/-- The spec's rotation example: old root keys {A, B} with threshold 2,
candidate root keys {C, D} with threshold 2.  Signed by A and B only the
rotation fails with `RotationError` and the old root stays active; signed
by A, B, C and D it is accepted. -/
theorem root_rotation_dual_threshold_witness :
    (acceptCandidateRoot ⟨1, ⟨["A", "B"], 2⟩⟩ ⟨2, ⟨["C", "D"], 2⟩⟩
        (fun _ => true) [⟨"A", 0⟩, ⟨"B", 0⟩] = .error .rotationError
      ∧ activeAfterRotation ⟨1, ⟨["A", "B"], 2⟩⟩ ⟨2, ⟨["C", "D"], 2⟩⟩
        (fun _ => true) [⟨"A", 0⟩, ⟨"B", 0⟩] = ⟨1, ⟨["A", "B"], 2⟩⟩)
    ∧ acceptCandidateRoot ⟨1, ⟨["A", "B"], 2⟩⟩ ⟨2, ⟨["C", "D"], 2⟩⟩
        (fun _ => true) [⟨"A", 0⟩, ⟨"B", 0⟩, ⟨"C", 0⟩, ⟨"D", 0⟩] =
          .ok ⟨2, ⟨["C", "D"], 2⟩⟩ := by
  constructor
  · exact (root_rotation_dual_threshold ⟨1, ⟨["A", "B"], 2⟩⟩
      ⟨2, ⟨["C", "D"], 2⟩⟩ (fun _ => true) [⟨"A", 0⟩, ⟨"B", 0⟩]).2 (by decide)
  · exact (root_rotation_dual_threshold ⟨1, ⟨["A", "B"], 2⟩⟩
      ⟨2, ⟨["C", "D"], 2⟩⟩ (fun _ => true)
      [⟨"A", 0⟩, ⟨"B", 0⟩, ⟨"C", 0⟩, ⟨"D", 0⟩]).1.mpr (by decide)

/-- The role invariant of the spec: `1 ≤ threshold ≤ |keyids|`. -/
def invariantHolds (r : Role) : Prop :=
  1 ≤ r.threshold ∧ r.threshold ≤ r.keyids.length

instance (r : Role) : Decidable (invariantHolds r) :=
  inferInstanceAs (Decidable (_ ∧ _))

/-- Modelled from the spec: `addKey` (§4.1) is idempotent by key
identifier — the identifier is appended to the role's authorized set only
if absent. -/
def addKey (r : Role) (k : KeyId) : Role :=
  if k ∈ r.keyids then r else { r with keyids := r.keyids ++ [k] }

/-- Modelled from the spec: `removeKey` (§4.1) fails with `UnknownKey` if
the identifier is not authorized for the role, and — since the invariant
`1 ≤ threshold ≤ |keyids|` is checked at mutation — with
`InvalidThreshold` if the removal would leave fewer keys than the
threshold requires. -/
def removeKey (r : Role) (k : KeyId) : Except TufError Role :=
  if k ∈ r.keyids then
    if r.threshold ≤ (r.keyids.erase k).length then
      .ok { r with keyids := r.keyids.erase k }
    else .error .invalidThreshold
  else .error .unknownKey

/-- Modelled from the spec: `setThreshold(roleName, n)` fails with
`InvalidThreshold` unless `1 ≤ n ≤ |keyids|`. -/
def setThreshold (r : Role) (n : Nat) : Except TufError Role :=
  if 1 ≤ n ∧ n ≤ r.keyids.length then .ok { r with threshold := n }
  else .error .invalidThreshold

/-- A key-registry mutation on one role. -/
inductive KeyOp where
  | add (k : KeyId)
  | remove (k : KeyId)
  | setThr (n : Nat)
deriving DecidableEq

/-- Apply one mutation, returning the typed failure if it is rejected. -/
def applyKeyOp (r : Role) (op : KeyOp) : Except TufError Role :=
  match op with
  | .add k => .ok (addKey r k)
  | .remove k => removeKey r k
  | .setThr n => setThreshold r n

/-- The role after attempting one mutation: a rejected mutation leaves the
role unchanged. -/
def runKeyOp (r : Role) (op : KeyOp) : Role :=
  match applyKeyOp r op with
  | .ok r' => r'
  | .error _ => r

/-- The role after attempting a whole sequence of mutations. -/
def runKeyOps (r : Role) (ops : List KeyOp) : Role :=
  ops.foldl runKeyOp r

lemma invariant_runKeyOp (r : Role) (op : KeyOp) (h : invariantHolds r) :
    invariantHolds (runKeyOp r op) := by
  obtain ⟨h1, h2⟩ := h
  cases op with
  | add k =>
    have heq : runKeyOp r (.add k) = addKey r k := rfl
    rw [heq]
    unfold addKey
    by_cases hk : k ∈ r.keyids
    · rw [if_pos hk]
      exact ⟨h1, h2⟩
    · rw [if_neg hk]
      refine ⟨h1, ?_⟩
      simp only [List.length_append, List.length_singleton]
      omega
  | remove k =>
    unfold runKeyOp
    have heq : applyKeyOp r (.remove k) = removeKey r k := rfl
    rw [heq]
    unfold removeKey
    by_cases hk : k ∈ r.keyids
    · rw [if_pos hk]
      by_cases ht : r.threshold ≤ (r.keyids.erase k).length
      · rw [if_pos ht]
        exact ⟨h1, ht⟩
      · rw [if_neg ht]
        exact ⟨h1, h2⟩
    · rw [if_neg hk]
      exact ⟨h1, h2⟩
  | setThr n =>
    unfold runKeyOp
    have heq : applyKeyOp r (.setThr n) = setThreshold r n := rfl
    rw [heq]
    unfold setThreshold
    by_cases hn : 1 ≤ n ∧ n ≤ r.keyids.length
    · rw [if_pos hn]
      exact hn
    · rw [if_neg hn]
      exact ⟨h1, h2⟩

lemma invariant_runKeyOps (ops : List KeyOp) :
    ∀ r : Role, invariantHolds r → invariantHolds (runKeyOps r ops) := by
  induction ops with
  | nil => intro r h; exact h
  | cons op rest ih =>
    intro r h
    exact ih (runKeyOp r op) (invariant_runKeyOp r op h)

/-- The key pair the script generates for a top-level role, reduced to its
key identifier. -/
def keyidOf (r : String) : KeyId := "key-" ++ r

/-- The key identifier of the additional out-of-band root key
(`another_root_key` in the script). -/
def anotherRootKeyId : KeyId := "key-root2"

/-- A freshly created top-level role entry before any key is added:
no authorized keys, threshold 1 (the metadata library's default, which the
script's `Root(...)` constructor produces for each top-level role). -/
def initialTopRole : Role := ⟨[], 1⟩

/-- The key-registry mutations the script performs on each top-level role:
one `add_key` per role, plus — for the root role — the second root key and
the threshold assignment to 1 (lines 159-180 of the script). -/
def programRoleOps (r : String) : List KeyOp :=
  if r = "root" then
    [.add (keyidOf "root"), .add anotherRootKeyId, .setThr 1]
  else [.add (keyidOf r)]

/-- C3: from any role satisfying `1 ≤ threshold ≤ |keyids|`, every
mutation either succeeds with the invariant preserved (so any sequence
preserves it) or is rejected leaving the role unchanged; a threshold
assignment outside `[1, |keyids|]` and a key removal that would leave
fewer keys than the threshold are rejected with `InvalidThreshold`; and
every state each top-level role passes through after each mutation the
script performs satisfies the invariant. -/
theorem role_threshold_invariant (r : Role) (ops : List KeyOp) :
    (invariantHolds r → invariantHolds (runKeyOps r ops))
    ∧ (∀ op : KeyOp, applyKeyOp r op = .error .invalidThreshold →
        runKeyOp r op = r)
    ∧ (∀ n : Nat, ¬(1 ≤ n ∧ n ≤ r.keyids.length) →
        setThreshold r n = .error .invalidThreshold)
    ∧ (∀ k : KeyId, k ∈ r.keyids → (r.keyids.erase k).length < r.threshold →
        removeKey r k = .error .invalidThreshold)
    ∧ (∀ role ∈ ["root", "targets", "snapshot", "timestamp"],
        ((programRoleOps role).scanl runKeyOp initialTopRole).drop 1 |>.all
          (fun st => decide (invariantHolds st))) := by
  refine ⟨invariant_runKeyOps ops r, ?_, ?_, ?_, by decide⟩
  · intro op herr
    unfold runKeyOp
    rw [herr]
  · intro n hn
    unfold setThreshold
    rw [if_neg hn]
  · intro k hk ht
    unfold removeKey
    rw [if_pos hk, if_neg (by omega)]

/-- The invariant theorem applied to the script's root role: the three
mutations the script performs on it (two key additions, then setting the
threshold to 1) all keep `1 ≤ threshold ≤ |keyids|`, and an attempt to set
that role's threshold to 3 (above its two keys) is rejected with
`InvalidThreshold`. -/
theorem role_threshold_invariant_witness :
    invariantHolds (runKeyOps ⟨[keyidOf "root"], 1⟩
        [.add anotherRootKeyId, .setThr 1])
    ∧ setThreshold (runKeyOps ⟨[keyidOf "root"], 1⟩
        [.add anotherRootKeyId, .setThr 1]) 3 = .error .invalidThreshold := by
  constructor
  · exact (role_threshold_invariant ⟨[keyidOf "root"], 1⟩
      [.add anotherRootKeyId, .setThr 1]).1 (by decide)
  · exact (role_threshold_invariant (runKeyOps ⟨[keyidOf "root"], 1⟩
      [.add anotherRootKeyId, .setThr 1]) []).2.2.1 3 (by decide)

/-- Modelled from the spec: `sign` (§4.5) computes a signature over the
canonical payload encoding (abstracted into the `Signature` value) and
appends it, dropping any prior signature from the same key identifier. -/
def signEnvelope (sigs : List Signature) (s : Signature) : List Signature :=
  (sigs.filter fun t => decide (t.keyid ≠ s.keyid)) ++ [s]

lemma mem_signEnvelope (sigs : List Signature) (s t : Signature) :
    t ∈ signEnvelope sigs s ↔ (t ∈ sigs ∧ t.keyid ≠ s.keyid) ∨ t = s := by
  unfold signEnvelope
  simp only [List.mem_append, List.mem_filter, List.mem_singleton,
    decide_eq_true_eq]

lemma nodup_keyids_signEnvelope (sigs : List Signature) (s : Signature)
    (h : (sigs.map Signature.keyid).Nodup) :
    ((signEnvelope sigs s).map Signature.keyid).Nodup := by
  unfold signEnvelope
  rw [List.map_append, List.nodup_append]
  refine ⟨?_, List.nodup_singleton _, ?_⟩
  · exact h.sublist ((List.filter_sublist sigs).map Signature.keyid)
  · intro k hk hks
    simp only [List.map_cons, List.map_nil, List.mem_singleton] at hks
    subst hks
    obtain ⟨t, ht, htk⟩ := List.mem_map.mp hk
    have := (List.mem_filter.mp ht).2
    rw [decide_eq_true_eq] at this
    exact this htk

lemma nodup_keyids_foldl_signEnvelope (ops : List Signature) :
    ∀ sigs : List Signature, (sigs.map Signature.keyid).Nodup →
      ((ops.foldl signEnvelope sigs).map Signature.keyid).Nodup := by
  induction ops with
  | nil => intro sigs h; exact h
  | cons s rest ih =>
    intro sigs h
    exact ih (signEnvelope sigs s) (nodup_keyids_signEnvelope sigs s h)

/-- C5: signing appends the new signature and removes any prior signature
from the same key identifier — the new signature is present, every
signature kept from before has a different key identifier (so the only
signature carrying the signer's key identifier is the new one), signatures
from other keys survive, re-signing with the same signature is idempotent,
and after any sequence of sign operations on an initially unsigned
envelope no two signatures share a key identifier. -/
theorem sign_replaces_same_keyid (sigs : List Signature) (s : Signature) :
    signEnvelope (signEnvelope sigs s) s = signEnvelope sigs s
    ∧ s ∈ signEnvelope sigs s
    ∧ (∀ t ∈ signEnvelope sigs s, t.keyid = s.keyid → t = s)
    ∧ (∀ t ∈ sigs, t.keyid ≠ s.keyid → t ∈ signEnvelope sigs s)
    ∧ (∀ ops : List Signature,
        ((ops.foldl signEnvelope []).map Signature.keyid).Nodup) := by
  refine ⟨?_, ?_, ?_, ?_, ?_⟩
  · unfold signEnvelope
    rw [List.filter_append, List.filter_filter]
    simp
  · exact (mem_signEnvelope sigs s s).mpr (Or.inr rfl)
  · intro t ht hk
    rcases (mem_signEnvelope sigs s t).mp ht with ⟨-, hne⟩ | heq
    · exact absurd hk hne
    · exact heq
  · intro t ht hk
    exact (mem_signEnvelope sigs s t).mpr (Or.inl ⟨ht, hk⟩)
  · intro ops
    exact nodup_keyids_foldl_signEnvelope ops [] (by simp)

/-- Re-signing an already signed envelope with key identifier "A":
the stale "A" signature is dropped, the "B" signature survives, and the
result carries the fresh "A" signature last. -/
theorem sign_replaces_same_keyid_witness :
    signEnvelope [⟨"A", 0⟩, ⟨"B", 1⟩] ⟨"A", 5⟩ = [⟨"B", 1⟩, ⟨"A", 5⟩]
    ∧ (⟨"B", 1⟩ : Signature) ∈ signEnvelope [⟨"A", 0⟩, ⟨"B", 1⟩] ⟨"A", 5⟩ := by
  refine ⟨by decide, ?_⟩
  exact (sign_replaces_same_keyid [⟨"A", 0⟩, ⟨"B", 1⟩] ⟨"A", 5⟩).2.2.2.1
    ⟨"B", 1⟩ (by decide) (by decide)

/-- The filename the script's persist loop computes for a versioned role
(line 212): the f-string `"{version}.{type}.json"`. -/
def persistFilename (version : Nat) (roleType : String) : String :=
  toString version ++ "." ++ roleType ++ ".json"

/-- The `version` field of each payload the script persists: the metadata
library initializes every payload at version 1 and the script performs no
version bump before persisting. -/
def programVersion (_r : String) : Nat := 1

/-- The (role, filename) pairs the script writes (lines 211-218): the loop
over root, targets and snapshot uses the versioned name built from the
payload's own version field; timestamp is then written under the fixed
name "timestamp.json". -/
def persistedFiles : List (String × String) :=
  (["root", "targets", "snapshot"].map fun r =>
    (r, persistFilename (programVersion r) r))
    ++ [("timestamp", "timestamp.json")]

/-- C4: under the consistent-snapshot convention the script writes root,
targets and snapshot under "(version).(roleName).json" with the version
taken from each payload's own version field, while timestamp is written
under the fixed unversioned name "timestamp.json" (the only timestamp
entry among the persisted files is the unversioned one). -/
theorem consistent_snapshot_filenames :
    persistedFiles = [("root", "1.root.json"), ("targets", "1.targets.json"),
      ("snapshot", "1.snapshot.json"), ("timestamp", "timestamp.json")]
    ∧ (["root", "targets", "snapshot"].all fun r =>
        decide ((r, persistFilename (programVersion r) r) ∈ persistedFiles))
    ∧ ((persistedFiles.filter fun p => decide (p.1 = "timestamp")).map
        Prod.snd) = ["timestamp.json"] := by
  refine ⟨by decide, by decide, by decide⟩

/-- A versioned-metadata store: the files already written, keyed by
(role name, version), with the file content abstracted to a number. -/
abbrev VersionedStore := List ((String × Nat) × Nat)

/-- Modelled from the spec: the storage collaborator's `put` (§6) combined
with the persister's guarantee (§4.6) — writing a (role, version) pair
whose versioned filename already exists fails with `VersionConflict`
instead of overwriting, and a successful write appends the new file. -/
def publishVersioned (store : VersionedStore) (role : String) (version : Nat)
    (content : Nat) : Except TufError VersionedStore :=
  if (role, version) ∈ store.map Prod.fst then .error .versionConflict
  else .ok (store ++ [((role, version), content)])

/-- The store after a publish attempt: a failed publish writes nothing. -/
def runPublish (store : VersionedStore) (role : String) (version : Nat)
    (content : Nat) : VersionedStore :=
  match publishVersioned store role version content with
  | .ok s => s
  | .error _ => store

/-- C7: once a (role, version) pair has been written, a second publish of
the same pair fails with `VersionConflict` and leaves the store — and in
particular the previously written file — unchanged, while publishing the
next version after an existing one succeeds. -/
theorem versioned_files_immutable (store : VersionedStore) (role : String)
    (v c c' c'' : Nat) (hfresh : (role, v) ∉ store.map Prod.fst) :
    publishVersioned store role v c = .ok (store ++ [((role, v), c)])
    ∧ publishVersioned (store ++ [((role, v), c)]) role v c' =
        .error .versionConflict
    ∧ runPublish (store ++ [((role, v), c)]) role v c' =
        store ++ [((role, v), c)]
    ∧ ((role, v + 1) ∉ store.map Prod.fst →
        publishVersioned (store ++ [((role, v), c)]) role (v + 1) c'' =
          .ok (store ++ [((role, v), c), ((role, v + 1), c'')])) := by
  have hmem : (role, v) ∈ (store ++ [((role, v), c)]).map Prod.fst := by
    rw [List.map_append]
    exact List.mem_append.mpr (Or.inr (by simp))
  have hsecond : publishVersioned (store ++ [((role, v), c)]) role v c' =
      .error .versionConflict := by
    unfold publishVersioned
    rw [if_pos hmem]
  refine ⟨?_, hsecond, ?_, ?_⟩
  · unfold publishVersioned
    rw [if_neg hfresh]
  · unfold runPublish
    rw [hsecond]
  · intro hfresh'
    have hne : ((role, v + 1) : String × Nat) ≠ (role, v) := by
      intro h
      exact Nat.succ_ne_self v (congrArg Prod.snd h)
    have hnotmem : (role, v + 1) ∉ (store ++ [((role, v), c)]).map Prod.fst := by
      rw [List.map_append]
      intro h
      rcases List.mem_append.mp h with h' | h'
      · exact hfresh' h'
      · simp only [List.map_cons, List.map_nil, List.mem_singleton] at h'
        exact hne h'
    unfold publishVersioned
    rw [if_neg hnotmem, List.append_assoc]
    rfl

/-- The spec's example: publishing Snapshot version 1 a second time fails
with `VersionConflict` (leaving the stored file unchanged), while
publishing version 2 after version 1 succeeds. -/
theorem versioned_files_immutable_witness :
    publishVersioned [(("snapshot", 1), 7)] "snapshot" 1 8 =
      .error .versionConflict
    ∧ runPublish [(("snapshot", 1), 7)] "snapshot" 1 8 = [(("snapshot", 1), 7)]
    ∧ publishVersioned [(("snapshot", 1), 7)] "snapshot" 2 9 =
        .ok [(("snapshot", 1), 7), (("snapshot", 2), 9)] := by
  have h := versioned_files_immutable [] "snapshot" 1 7 8 9 (by decide)
  exact ⟨h.2.1, h.2.2.1, h.2.2.2 (by decide)⟩

/-- Modelled from the spec: the Snapshot payload's meta map as the script
creates it with `Metadata(Snapshot(expires=_in(7)))` (line 123) — the
metadata library's default meta lists the top-level targets role at
version 1.  Keyed here by role name (the wire key is the role name plus
".json"). -/
def snapshotMeta : List (String × Nat) := [("targets", 1)]

/-- Modelled from the spec: the Timestamp payload's snapshot_meta version
as the script creates it with `Metadata(Timestamp(expires=_in(1)))`
(line 137) — the library default references snapshot version 1. -/
def timestampSnapshotVersion : Nat := 1

/-- The Targets roles reachable from the script's delegation graph: only
the top-level targets role, since the script registers no delegations. -/
def reachableTargetsRoles : List String := ["targets"]

/-- The versioned files the script publishes (lines 211-214), with each
file's content abstracted to its payload version. -/
def programStore : VersionedStore :=
  runPublish (runPublish (runPublish [] "root" 1 1) "targets" 1 1)
    "snapshot" 1 1

/-- The latest version persisted for a role in a store. -/
def latestPersistedVersion (store : VersionedStore) (r : String) :
    Option Nat :=
  match ((store.map Prod.fst).filter fun p => decide (p.1 = r)).map
      Prod.snd with
  | [] => none
  | v :: vs => some (vs.foldl max v)

/-- C6: over the set of files the script publishes, the Snapshot payload's
meta map records, for every Targets role reachable from the delegation
graph, exactly the latest version persisted for that role, and the
Timestamp payload's snapshot_meta version equals the latest persisted
Snapshot version. -/
theorem snapshot_meta_matches_persisted :
    (reachableTargetsRoles.all fun r =>
      decide (snapshotMeta.lookup r = latestPersistedVersion programStore r))
    ∧ some timestampSnapshotVersion =
        latestPersistedVersion programStore "snapshot" := by
  refine ⟨by decide, by decide⟩

/-- Truncate a microsecond timestamp to whole seconds — the script's
`datetime.utcnow().replace(microsecond=0)` (line 48). -/
def truncToSeconds (t : Nat) : Nat := t / 1000000 * 1000000

/-- One day in microseconds. -/
def microsPerDay : Nat := 86400 * 1000000

/-- The script's `_in(days)` helper (lines 46-48): truncate the creation
clock reading to whole seconds and add `days` days. -/
def inDays (now : Nat) (days : Nat) : Nat :=
  truncToSeconds now + days * microsPerDay

/-- The expiry interval in days the script passes to `_in` for each
top-level payload (lines 96, 123, 137, 153): 365 for root, 1 for
timestamp, 7 for targets and snapshot. -/
def expiryDaysOf (r : String) : Nat :=
  if r = "root" then 365 else if r = "timestamp" then 1 else 7

lemma now_lt_inDays (now days : Nat) (hdays : 1 ≤ days) :
    now < inDays now days := by
  unfold inDays truncToSeconds microsPerDay
  omega

/-- C8: every payload the script creates expires strictly after its
creation-time clock reading — `_in(days)` with a positive day count
exceeds the clock reading, it equals the clock reading plus that many
days truncated to whole seconds, and each of the four top-level payloads
uses a positive day count (365 for root, 7 for targets and snapshot,
1 for timestamp). -/
theorem expiry_strictly_future (now days : Nat) (hdays : 1 ≤ days) :
    now < inDays now days
    ∧ inDays now days = truncToSeconds (now + days * microsPerDay)
    ∧ (∀ r ∈ (["root", "targets", "snapshot", "timestamp"] : List String),
        1 ≤ expiryDaysOf r ∧ now < inDays now (expiryDaysOf r)) := by
  refine ⟨now_lt_inDays now days hdays, ?_, ?_⟩
  · unfold inDays truncToSeconds microsPerDay
    omega
  · intro r hr
    have h1 : 1 ≤ expiryDaysOf r := by
      fin_cases hr <;> decide
    exact ⟨h1, now_lt_inDays now _ h1⟩

/-- The expiry bound evaluated at a concrete clock reading (one with a
nonzero microsecond part) and the script's shortest interval, one day. -/
theorem expiry_strictly_future_witness :
    1234567 < inDays 1234567 1
    ∧ inDays 1234567 1 = truncToSeconds (1234567 + 1 * microsPerDay) :=
  ⟨(expiry_strictly_future 1234567 1 (by decide)).1,
    (expiry_strictly_future 1234567 1 (by decide)).2.1⟩

/-- A target-file entry: the target path stored in the entry and the
local file the hashes and length were computed from (the cryptographic
digest computation is external; the local path identifies its input). -/
structure TargetFile where
  path : String
  localSource : String
deriving DecidableEq

/-- `TargetFile.from_file(target_file_path, local_path)`: builds an entry
whose stored path is the first argument. -/
def TargetFile.from_file (targetPath localPath : String) : TargetFile :=
  ⟨targetPath, localPath⟩

/-- Line 107: `os.getcwd() + "/root.layout"`. -/
def target1_local_path (cwd : String) : String := cwd ++ "/root.layout"

/-- Line 108: `os.getcwd() + "/alice.pub"`. -/
def target2_local_path (cwd : String) : String := cwd ++ "/alice.pub"

/-- Line 109. -/
def target1_path : String := "root.layout"

/-- Line 110. -/
def target2_path : String := "alice.pub"

/-- Line 112: `TargetFile.from_file(target1_path, target1_local_path)`. -/
def target1_file_info (cwd : String) : TargetFile :=
  TargetFile.from_file target1_path (target1_local_path cwd)

/-- Line 113: `TargetFile.from_file(target1_path, target2_local_path)` —
the script passes `target1_path`, not `target2_path`, as the stored
target path. -/
def target2_file_info (cwd : String) : TargetFile :=
  TargetFile.from_file target1_path (target2_local_path cwd)

/-- Lines 114-115: the top-level targets map after the script registers
both entries, keyed by `target1_path` and `target2_path`. -/
def programTargetsMap (cwd : String) : List (String × TargetFile) :=
  [(target1_path, target1_file_info cwd), (target2_path, target2_file_info cwd)]

/-- C9 (evaluation at the failing input): the entry the script stores
under the key "alice.pub" carries the stored path "root.layout", so it
does not record the path it is keyed under, and the TargetFile paths in
the script's targets map are not pairwise distinct (both entries carry
"root.layout"). -/
theorem target_path_mismatch (cwd : String) :
    (target2_file_info cwd).path = "root.layout"
    ∧ target2_path = "alice.pub"
    ∧ (target2_file_info cwd).path ≠ target2_path
    ∧ ((programTargetsMap cwd).map fun p => p.2.path) =
        ["root.layout", "root.layout"]
    ∧ ¬((programTargetsMap cwd).map fun p => p.2.path).Nodup := by
  refine ⟨rfl, rfl, (by decide : target1_path ≠ target2_path), rfl, ?_⟩
  intro h
  rw [show ((programTargetsMap cwd).map fun p => p.2.path) =
    ["root.layout", "root.layout"] from rfl] at h
  simp at h

/-- The `type` field of the payload the script stores under a given role
name: Targets reports "targets", Snapshot "snapshot", Timestamp
"timestamp" and Root "root", so it coincides with the role name the
envelope is stored under. -/
def payloadType (r : String) : String := r

/-- The signing loop (lines 187-190): each envelope starts unsigned and
is signed exactly once, with the key pair looked up under the envelope's
own payload type (`keys[roles[name].signed.type]`); the signature bytes
are abstracted to 0. -/
def programSignatures (r : String) : List Signature :=
  signEnvelope [] ⟨keyidOf (payloadType r), 0⟩

/-- The root role entry after the script's key management (lines 159-180):
both root keys authorized, threshold set to 1. -/
def rootRoleFinal : Role := runKeyOps initialTopRole (programRoleOps "root")

/-- C10: after the signing phase each of the four top-level envelopes
carries exactly one signature, produced with the key generated for that
envelope's own role name; the second root key signs nothing, yet the root
envelope meets the root role's threshold because that threshold is 1. -/
theorem signing_phase_signatures :
    (["targets", "snapshot", "timestamp", "root"].all fun r =>
      decide (programSignatures r = [⟨keyidOf r, 0⟩]))
    ∧ (["targets", "snapshot", "timestamp", "root"].all fun r =>
        (programSignatures r).all fun s => decide (s.keyid ≠ anotherRootKeyId))
    ∧ rootRoleFinal = ⟨[keyidOf "root", anotherRootKeyId], 1⟩
    ∧ rootRoleFinal.threshold = 1
    ∧ distinctValidCount rootRoleFinal (fun _ => true)
        (programSignatures "root") = 1
    ∧ thresholdMet rootRoleFinal (fun _ => true)
        (programSignatures "root") = true := by
  refine ⟨by decide, by decide, by decide, by decide, by decide, by decide⟩

end TufBootstrap
